import Mathlib

/-
Verification of the Raytracer core (lib.rs and bin/main.rs) against its
natural-language specification.  Machine `f32` arithmetic is embedded as
exact real arithmetic; fallible operations return `Option`.
-/

noncomputable section

namespace Raytracer

/-- Modelled from the spec: thallium's `Vector3<f32>` value type (external
crate), a triple of floating-point components embedded as reals. -/
@[ext]
structure Vector3 where
  x : ℝ
  y : ℝ
  z : ℝ

/-- Modelled from the spec: `Vector3::zero()` (thallium `Zero` trait). -/
def Vector3.zero : Vector3 := ⟨0, 0, 0⟩

/-- Modelled from the spec: the `.into()` conversion of an `f32` scalar to a
`Vector3` that the source applies before componentwise multiplication and
division (scalar broadcast). -/
def Vector3.splat (k : ℝ) : Vector3 := ⟨k, k, k⟩

instance : Add Vector3 := ⟨fun a b => ⟨a.x + b.x, a.y + b.y, a.z + b.z⟩⟩
instance : Sub Vector3 := ⟨fun a b => ⟨a.x - b.x, a.y - b.y, a.z - b.z⟩⟩
instance : Neg Vector3 := ⟨fun a => ⟨-a.x, -a.y, -a.z⟩⟩
instance : Mul Vector3 := ⟨fun a b => ⟨a.x * b.x, a.y * b.y, a.z * b.z⟩⟩
instance : Div Vector3 := ⟨fun a b => ⟨a.x / b.x, a.y / b.y, a.z / b.z⟩⟩

/-- Modelled from the spec: componentwise dot product (thallium external). -/
def Vector3.dot (a b : Vector3) : ℝ := a.x * b.x + a.y * b.y + a.z * b.z

/-- Modelled from the spec: `sqr_length` is the dot product of a vector with
itself (thallium external). -/
def Vector3.sqr_length (a : Vector3) : ℝ := a.x * a.x + a.y * a.y + a.z * a.z

/-- Modelled from the spec: `length` is the square root of `sqr_length`
(thallium external). -/
def Vector3.length (a : Vector3) : ℝ := Real.sqrt a.sqr_length

/-- Modelled from the spec: `normalized` scales a vector by the reciprocal of
its length (thallium external). -/
def Vector3.normalized (a : Vector3) : Vector3 := a * Vector3.splat (1 / a.length)

/-- Modelled from the spec: mirror reflection of `v` about the normal `n`
(thallium external), the standard `v - n * (2 * (v . n))`. -/
def Vector3.reflect (v n : Vector3) : Vector3 := v - n * Vector3.splat (2 * v.dot n)

/-- Modelled from the spec: Rust `f32::signum`, which is `1.0` for
non-negative values (including `+0.0`) and `-1.0` for negative values;
`NaN` does not arise in the exact-real embedding. -/
def signum (v : ℝ) : ℝ := if v < 0 then -1 else 1

/-- Modelled from the spec: thallium's `Vector2<f32>`. -/
structure Vector2 where
  x : ℝ
  y : ℝ

/-- The `Ray` struct from lib.rs: origin plus direction. -/
structure Ray where
  origin : Vector3
  direction : Vector3

/-- The `Material` struct from lib.rs. -/
structure Material where
  diffuse_color : Vector3
  emit_color : Vector3
  reflectiveness : ℝ

/-- The `Hit` struct from lib.rs: position, normal and distance.  Note that the source
struct carries no material field. -/
structure Hit where
  position : Vector3
  normal : Vector3
  distance : ℝ

/-- The `Object` enum from lib.rs: the tagged union of spheres and planes. -/
inductive Object where
  | Sphere (center : Vector3) (radius : ℝ) (material : Material)
  | Plane (normal : Vector3) (distance_along_normal : ℝ) (material : Material)

/-- Embedding of `Object::get_material` from lib.rs. -/
def Object.get_material : Object → Material
  | .Sphere _ _ material => material
  | .Plane _ _ material => material

/-- Data-model invariant from the spec: spheres have strictly positive
radius and planes store a unit normal. -/
def Object.wf : Object → Prop
  | .Sphere _ radius _ => 0 < radius
  | .Plane normal _ _ => normal.sqr_length = 1

/-- Embedding of `Object::intersect` from lib.rs (lines 45-100). -/
def Object.intersect (o : Object) (ray : Ray) : Option Hit :=
  match o with
  | .Sphere center radius _ =>
      let oc := ray.origin - center
      let a := ray.direction.sqr_length
      let half_b := oc.dot ray.direction
      let c := oc.sqr_length - radius * radius
      let discriminant := half_b * half_b - a * c
      if discriminant < 0 then none
      else
        let distance := (-half_b - Real.sqrt discriminant) / a
        if distance ≤ 0 then none
        else
          let position := ray.origin + ray.direction * Vector3.splat distance
          let normal := (position - center) * Vector3.splat (1 / radius)
          some ⟨position, normal, distance⟩
  | .Plane normal distance_along_normal _ =>
      let vd := normal.dot ray.direction
      -- vd == 0.0 for double sided, vd >= 0.0 for one sided
      if 0 ≤ vd then none
      else
        let vo := -(normal.dot ray.origin + distance_along_normal)
        let distance := vo / vd
        if distance ≤ 0 then none
        else
          let position := ray.origin + ray.direction * Vector3.splat distance
          some ⟨position, normal, distance⟩

/-- The `Camera` struct from lib.rs. -/
structure Camera where
  position : Vector3
  right : Vector3
  up : Vector3
  forward : Vector3

/-- Embedding of `Camera::get_ray` from lib.rs (lines 125-133). -/
def Camera.get_ray (c : Camera) (uv : Vector2) (aspect : ℝ) : Ray :=
  { origin := c.position
    direction :=
      ((c.right * Vector3.splat ((uv.x * 2 - 1) * aspect))
        + (c.up * Vector3.splat (uv.y * 2 - 1))
        + c.forward).normalized }

def SAMPLES_PER_BOUNCE : ℕ := 2
def BOUNCES : ℕ := 5
def DAY : Bool := false

/-- The fold body of `get_closest_object` (lib.rs lines 144-156): the Rust
`hit.zip(new_hit).map_or_else(|| hit.or(new_hit), ...)` keeps the old hit
only when it is strictly closer, otherwise takes the new one. -/
def closest_step (ray : Ray) (hit : Option (Hit × ℕ)) (p : ℕ × Object) :
    Option (Hit × ℕ) :=
  let new_hit := (p.2.intersect ray).map fun nh => (nh, p.1)
  match hit, new_hit with
  | some h, some nh => if h.1.distance < nh.1.distance then some h else some nh
  | none, _ => new_hit
  | some h, none => some h

/-- Embedding of `get_closest_object` from lib.rs (lines 140-157): a linear fold over the
enumerated object list. -/
def get_closest_object (ray : Ray) (objects : List Object) : Option (Hit × ℕ) :=
  (objects.enum).foldl (closest_step ray) none

/-- Default object used to totalise the `objects[index]` access of the
source (which panics out of bounds; the index is proved in bounds). -/
def defaultObject : Object :=
  .Plane Vector3.zero 0 ⟨Vector3.zero, Vector3.zero, 0⟩

/-- The random source: an infinite stream of reals standing for the
successive `rng.gen::<f32>()` draws. -/
def RNG : Type := ℕ → ℝ

/-- Drawing one value from the stream. -/
def draw (g : RNG) : ℝ × RNG := (g 0, fun n => g (n + 1))

/-- Embedding of `random_in_direction` from lib.rs (lines 172-182): a random vector with
components in [-1,1], sign-flipped so its dot product with `direction` is
non-negative. -/
def random_in_direction (g : RNG) (direction : Vector3) : Vector3 × RNG :=
  let r1 := draw g
  let r2 := draw r1.2
  let r3 := draw r2.2
  let random : Vector3 := ⟨r1.1 * 2 - 1, r2.1 * 2 - 1, r3.1 * 2 - 1⟩
  (random * Vector3.splat (signum (random.dot direction)), r3.2)

/-- The bounce ray constructed inside `ray_trace` (lib.rs lines 190-195 and
the identical main.rs lines 246-251): origin offset by `0.001` along the
normal, direction the unnormalised blend of the random and mirror
directions weighted by `reflectiveness`. -/
def bounce_ray (position normal direction : Vector3) (reflectiveness : ℝ)
    (g : RNG) : Ray × RNG :=
  let rand := random_in_direction g direction
  (⟨position + normal * Vector3.splat 0.001,
    rand.1 * Vector3.splat (1 - reflectiveness)
      + direction * Vector3.splat reflectiveness⟩, rand.2)

/-- The `for _ in 0..SAMPLES_PER_BOUNCE` accumulation loop of `ray_trace`
(lib.rs lines 187-200, main.rs lines 243-256), parameterised by the
recursive trace call for the next depth. -/
def sample_loop (trace : Ray → RNG → Vector3 × RNG)
    (position normal direction : Vector3) (reflectiveness : ℝ) :
    ℕ → RNG → Vector3 × RNG
  | 0, g => (Vector3.zero, g)
  | n + 1, g =>
      let rg := bounce_ray position normal direction reflectiveness g
      let cg := trace rg.1 rg.2
      let sg := sample_loop trace position normal direction reflectiveness n cg.2
      (cg.1 + sg.1, sg.2)

/-- The sky-gradient miss branch (lib.rs lines 205-209, main.rs lines
261-264). -/
def sky_color (ray : Ray) : Vector3 :=
  let t := ray.direction.y * 0.5 + 0.5
  let up_color : Vector3 := ⟨1, 1, 1⟩
  let down_color : Vector3 := ⟨0.5, 0.7, 1.0⟩
  up_color * Vector3.splat (1 - t) + down_color * Vector3.splat t

/-- Embedding of `ray_trace` from lib.rs (lines 159-214) with the static `DAY` flag as a
parameter; the source function is this at `day = DAY`. -/
def ray_trace_with (day : Bool) : ℕ → Ray → List Object → RNG → Vector3 × RNG
  | 0, _, _, g => (Vector3.zero, g)
  | depth + 1, ray, objects, g =>
      match get_closest_object ray objects with
      | some (hit, index) =>
          let material := (objects.getD index defaultObject).get_material
          let direction := ray.direction.reflect hit.normal
          let icg :=
            sample_loop (fun r g => ray_trace_with day depth r objects g)
              hit.position hit.normal direction material.reflectiveness
              SAMPLES_PER_BOUNCE g
          (material.emit_color
            + material.diffuse_color
              * (icg.1 * Vector3.splat (1 / (SAMPLES_PER_BOUNCE : ℝ))), icg.2)
      | none =>
          if day then (sky_color ray, g)
          else ((⟨0.1, 0.1, 0.1⟩ : Vector3), g)

/-- Embedding of `ray_trace` from lib.rs in the source's argument order, with the
source's constant `DAY` configuration. -/
def ray_trace (ray : Ray) (objects : List Object) (g : RNG) (depth : ℕ) :
    Vector3 × RNG :=
  ray_trace_with DAY depth ray objects g

namespace Main

/-- The hit record as assumed by the nested `ray_trace` of main.rs, which
reads `hit.material` (lines 249-250 and 259); lib.rs's `Hit` carries no
material field, so main.rs's reads are modelled by a record that extends
the lib hit with the intersected object's material. -/
structure MainHit where
  position : Vector3
  normal : Vector3
  distance : ℝ
  material : Material

/-- Embedding of `Object::intersect` as consumed by main.rs: the lib intersection with
the object's own material attached, matching main.rs's assumption that the
hit carries the material of the object that produced it. -/
def intersect_with_material (o : Object) (ray : Ray) : Option MainHit :=
  (o.intersect ray).map fun h =>
    ⟨h.position, h.normal, h.distance, o.get_material⟩

/-- The fold body of main.rs's nested `get_closest_object` (lines 201-213),
identical to the lib fold except that no index is tracked. -/
def closest_step (ray : Ray) (hit : Option MainHit) (object : Object) :
    Option MainHit :=
  let new_hit := intersect_with_material object ray
  match hit, new_hit with
  | some h, some nh => if h.distance < nh.distance then some h else some nh
  | none, _ => new_hit
  | some h, none => some h

/-- main.rs's nested `get_closest_object` (lines 200-214). -/
def get_closest_object (ray : Ray) (objects : List Object) : Option MainHit :=
  objects.foldl (closest_step ray) none

/-- main.rs's nested `ray_trace` (lines 216-266): same bounce arithmetic as
the library, but the miss branch is the sky gradient unconditionally. -/
def ray_trace_rec : ℕ → Ray → List Object → RNG → Vector3 × RNG
  | 0, _, _, g => (Vector3.zero, g)
  | depth + 1, ray, objects, g =>
      match get_closest_object ray objects with
      | some hit =>
          let direction := ray.direction.reflect hit.normal
          let icg :=
            sample_loop (fun r g => ray_trace_rec depth r objects g)
              hit.position hit.normal direction hit.material.reflectiveness
              SAMPLES_PER_BOUNCE g
          (hit.material.emit_color
            + hit.material.diffuse_color
              * (icg.1 * Vector3.splat (1 / (SAMPLES_PER_BOUNCE : ℝ))), icg.2)
      | none => (sky_color ray, g)

/-- main.rs's nested `ray_trace` in the source's argument order. -/
def ray_trace (ray : Ray) (objects : List Object) (g : RNG) (depth : ℕ) :
    Vector3 × RNG :=
  ray_trace_rec depth ray objects g

end Main

/-- Attaching to a lib hit the material of the object at its index, the
value main.rs expects its hit records to carry. -/
def attach_material (objs : List Object) (p : Hit × ℕ) : Main.MainHit :=
  ⟨p.1.position, p.1.normal, p.1.distance,
    (objs.getD p.2 defaultObject).get_material⟩

/-- The per-pixel accumulator update of main.rs line 287:
`pixel += (color - pixel) / (frames_since_movement + 1)`. -/
def accumulate_pixel (pixel S : Vector3) (frames_since_movement : ℕ) : Vector3 :=
  pixel + (S - pixel) / Vector3.splat ((frames_since_movement : ℝ) + 1)

/-- The accumulator history of one pixel: reset to zero when
`frames_since_movement` is 0 (main.rs lines 187-189), then updated once per
frame with the frame's estimate and the current counter value, the counter
incrementing each frame (main.rs line 310). -/
def accumulate_run (S : ℕ → Vector3) : ℕ → Vector3
  | 0 => Vector3.zero
  | n + 1 => accumulate_pixel (accumulate_run S n) (S n) n

/-- Modelled from the spec: the host window event type (thallium's
`SurfaceEvent`, external to this repository); per spec section 6 the
inbound discrete events are close requests, resizes, and pointer clicks
with a button id. -/
inductive SurfaceEvent where
  | Close
  | Resize (width height : ℕ)
  | MouseClick (button : ℕ) (x y : ℕ)

/-- The per-frame mutable state of the main loop that the event `match` of
main.rs can reach, together with the scene collection (an immutable
binding in main.rs, included here so that claims about scene growth are
statable). -/
structure LoopState where
  pixels : List Vector3
  frames_since_movement : ℕ
  running : Bool
  objects : List Object

/-- The event handling `match` of main.rs (lines 129-144): `Close` ends the
loop, `Resize` reallocates the pixel buffer and resets the counter, and
every other event (clicks included) falls through the wildcard arm and does
nothing. -/
def handle_event (s : LoopState) (e : SurfaceEvent) : LoopState :=
  match e with
  | .Close => { s with running := false }
  | .Resize width height =>
      { s with pixels := List.replicate (width * height) Vector3.zero
               frames_since_movement := 0 }
  | _ => s

/-- The hardcoded startup scene of main.rs (lines 96-115): a ground plane
and one sphere. -/
def startup_objects : List Object :=
  [ .Plane ⟨0, 1, 0⟩ 0
      ⟨⟨0.2, 0.8, 0.3⟩, ⟨0, 0, 0⟩, 0⟩,
    .Sphere ⟨0, 1, 0⟩ 1
      ⟨⟨0.8, 0.3, 0.2⟩, ⟨0, 0, 0⟩, 0⟩ ]

/-- The startup camera of main.rs (lines 92-95). -/
def startup_camera : Camera :=
  ⟨⟨0, 1, -3⟩, ⟨1, 0, 0⟩, ⟨0, 1, 0⟩, ⟨0, 0, 1⟩⟩

/-- Scalar shadow of the per-pixel accumulator recurrence, used to reason
componentwise about `accumulate_run`. -/
def accumulate_runR (S : ℕ → ℝ) : ℕ → ℝ
  | 0 => 0
  | n + 1 => accumulate_runR S n + (S n - accumulate_runR S n) / ((n : ℝ) + 1)

instance : Zero Vector3 := ⟨Vector3.zero⟩

instance : AddCommMonoid Vector3 where
  add_assoc a b c := by ext <;> exact add_assoc ..
  zero_add a := by ext <;> exact zero_add ..
  add_zero a := by ext <;> exact add_zero ..
  add_comm a b := by ext <;> exact add_comm ..
  nsmul := nsmulRec

/-- Projection to the x component as an additive monoid homomorphism. -/
def Vector3.xHom : Vector3 →+ ℝ :=
  { toFun := Vector3.x, map_zero' := rfl, map_add' := fun _ _ => rfl }

/-- Projection to the y component as an additive monoid homomorphism. -/
def Vector3.yHom : Vector3 →+ ℝ :=
  { toFun := Vector3.y, map_zero' := rfl, map_add' := fun _ _ => rfl }

/-- Projection to the z component as an additive monoid homomorphism. -/
def Vector3.zHom : Vector3 →+ ℝ :=
  { toFun := Vector3.z, map_zero' := rfl, map_add' := fun _ _ => rfl }

@[simp] theorem Vector3.add_x (a b : Vector3) : (a + b).x = a.x + b.x := rfl

@[simp] theorem Vector3.add_y (a b : Vector3) : (a + b).y = a.y + b.y := rfl

@[simp] theorem Vector3.add_z (a b : Vector3) : (a + b).z = a.z + b.z := rfl

@[simp] theorem Vector3.sub_x (a b : Vector3) : (a - b).x = a.x - b.x := rfl

@[simp] theorem Vector3.sub_y (a b : Vector3) : (a - b).y = a.y - b.y := rfl

@[simp] theorem Vector3.sub_z (a b : Vector3) : (a - b).z = a.z - b.z := rfl

@[simp] theorem Vector3.mul_x (a b : Vector3) : (a * b).x = a.x * b.x := rfl

@[simp] theorem Vector3.mul_y (a b : Vector3) : (a * b).y = a.y * b.y := rfl

@[simp] theorem Vector3.mul_z (a b : Vector3) : (a * b).z = a.z * b.z := rfl

@[simp] theorem Vector3.div_x (a b : Vector3) : (a / b).x = a.x / b.x := rfl

@[simp] theorem Vector3.div_y (a b : Vector3) : (a / b).y = a.y / b.y := rfl

@[simp] theorem Vector3.div_z (a b : Vector3) : (a / b).z = a.z / b.z := rfl

@[simp] theorem Vector3.splat_x (k : ℝ) : (Vector3.splat k).x = k := rfl

@[simp] theorem Vector3.splat_y (k : ℝ) : (Vector3.splat k).y = k := rfl

@[simp] theorem Vector3.splat_z (k : ℝ) : (Vector3.splat k).z = k := rfl

@[simp] theorem Vector3.zero_x : (Vector3.zero).x = 0 := rfl

@[simp] theorem Vector3.zero_y : (Vector3.zero).y = 0 := rfl

@[simp] theorem Vector3.zero_z : (Vector3.zero).z = 0 := rfl

@[simp] theorem Vector3.zero_def : (0 : Vector3) = Vector3.zero := rfl

@[simp] theorem Vector3.mk_add_mk (a₁ a₂ a₃ b₁ b₂ b₃ : ℝ) :
    (⟨a₁, a₂, a₃⟩ : Vector3) + ⟨b₁, b₂, b₃⟩ = ⟨a₁ + b₁, a₂ + b₂, a₃ + b₃⟩ := rfl

@[simp] theorem Vector3.mk_sub_mk (a₁ a₂ a₃ b₁ b₂ b₃ : ℝ) :
    (⟨a₁, a₂, a₃⟩ : Vector3) - ⟨b₁, b₂, b₃⟩ = ⟨a₁ - b₁, a₂ - b₂, a₃ - b₃⟩ := rfl

@[simp] theorem Vector3.mk_mul_mk (a₁ a₂ a₃ b₁ b₂ b₃ : ℝ) :
    (⟨a₁, a₂, a₃⟩ : Vector3) * ⟨b₁, b₂, b₃⟩ = ⟨a₁ * b₁, a₂ * b₂, a₃ * b₃⟩ := rfl

@[simp] theorem Vector3.mk_div_mk (a₁ a₂ a₃ b₁ b₂ b₃ : ℝ) :
    (⟨a₁, a₂, a₃⟩ : Vector3) / ⟨b₁, b₂, b₃⟩ = ⟨a₁ / b₁, a₂ / b₂, a₃ / b₃⟩ := rfl

@[simp] theorem Vector3.splat_def (k : ℝ) : Vector3.splat k = ⟨k, k, k⟩ := rfl

theorem Vector3.sqr_length_nonneg (v : Vector3) : 0 ≤ v.sqr_length := by
  have hx := mul_self_nonneg v.x
  have hy := mul_self_nonneg v.y
  have hz := mul_self_nonneg v.z
  unfold Vector3.sqr_length
  linarith

theorem Vector3.sqr_length_pos (v : Vector3) (hv : v ≠ Vector3.zero) :
    0 < v.sqr_length := by
  rcases lt_or_eq_of_le (Vector3.sqr_length_nonneg v) with h | h
  · exact h
  · exfalso
    apply hv
    have hx := mul_self_nonneg v.x
    have hy := mul_self_nonneg v.y
    have hz := mul_self_nonneg v.z
    unfold Vector3.sqr_length at h
    ext <;> simp <;> nlinarith

theorem accumulate_run_x (S : ℕ → Vector3) :
    ∀ n, (accumulate_run S n).x = accumulate_runR (fun i => (S i).x) n := by
  intro n
  induction n with
  | zero => simp [accumulate_run, accumulate_runR]
  | succ n ih => simp [accumulate_run, accumulate_runR, accumulate_pixel, ih]

theorem accumulate_run_y (S : ℕ → Vector3) :
    ∀ n, (accumulate_run S n).y = accumulate_runR (fun i => (S i).y) n := by
  intro n
  induction n with
  | zero => simp [accumulate_run, accumulate_runR]
  | succ n ih => simp [accumulate_run, accumulate_runR, accumulate_pixel, ih]

theorem accumulate_run_z (S : ℕ → Vector3) :
    ∀ n, (accumulate_run S n).z = accumulate_runR (fun i => (S i).z) n := by
  intro n
  induction n with
  | zero => simp [accumulate_run, accumulate_runR]
  | succ n ih => simp [accumulate_run, accumulate_runR, accumulate_pixel, ih]

theorem accumulate_runR_mul (S : ℕ → ℝ) :
    ∀ n, accumulate_runR S n * n = ∑ i in Finset.range n, S i := by
  intro n
  induction n with
  | zero => simp [accumulate_runR]
  | succ n ih =>
      have hn : ((n : ℝ) + 1) ≠ 0 := by positivity
      rw [Finset.sum_range_succ, ← ih]
      simp only [accumulate_runR]
      push_cast
      field_simp
      ring

/-- C3: starting from a zero accumulator at frame 0 and applying the
incremental update `pixel += (S - pixel) / (frames_since_movement + 1)`
each frame, the stored value after `n ≥ 1` frames is the arithmetic mean of
the per-frame estimates. -/
theorem c3_running_average_is_mean (S : ℕ → Vector3) (n : ℕ) (hn : 1 ≤ n) :
    accumulate_run S n = (∑ i in Finset.range n, S i) / Vector3.splat (n : ℝ) := by
  have hn0 : ((n : ℝ)) ≠ 0 := Nat.cast_ne_zero.mpr (by omega)
  ext
  · simp only [Vector3.div_x, Vector3.splat_x]
    rw [accumulate_run_x, eq_div_iff hn0, accumulate_runR_mul]
    exact (map_sum Vector3.xHom S (Finset.range n)).symm
  · simp only [Vector3.div_y, Vector3.splat_y]
    rw [accumulate_run_y, eq_div_iff hn0, accumulate_runR_mul]
    exact (map_sum Vector3.yHom S (Finset.range n)).symm
  · simp only [Vector3.div_z, Vector3.splat_z]
    rw [accumulate_run_z, eq_div_iff hn0, accumulate_runR_mul]
    exact (map_sum Vector3.zHom S (Finset.range n)).symm

/-- Witness for C3 at a concrete input. -/
theorem c3_running_average_is_mean_witness :
    accumulate_run (fun _ => (⟨2, 4, 6⟩ : Vector3)) 1
      = (∑ i in Finset.range 1, (⟨2, 4, 6⟩ : Vector3)) / Vector3.splat ((1 : ℕ) : ℝ) :=
  c3_running_average_is_mean _ 1 (by norm_num)

theorem sphere_intersect_none_of_nonpos (center : Vector3) (radius : ℝ)
    (m : Material) (ray : Ray)
    (h : (-((ray.origin - center).dot ray.direction)
          - Real.sqrt ((ray.origin - center).dot ray.direction
                * (ray.origin - center).dot ray.direction
              - ray.direction.sqr_length
                * ((ray.origin - center).sqr_length - radius * radius)))
        / ray.direction.sqr_length ≤ 0) :
    Object.intersect (.Sphere center radius m) ray = none := by
  simp only [Object.intersect]
  by_cases hd : (ray.origin - center).dot ray.direction
        * (ray.origin - center).dot ray.direction
      - ray.direction.sqr_length
        * ((ray.origin - center).sqr_length - radius * radius) < 0
  · rw [if_pos hd]
  · rw [if_neg hd, if_pos h]

/-- C4: sphere intersection considers only the near quadratic root
`(-half_b - sqrt(discriminant)) / a`, returns `none` whenever that root is
non-positive, and in particular returns `none` for every ray whose origin
is strictly inside the sphere. -/
theorem c4_sphere_near_root_only (center : Vector3) (radius : ℝ)
    (m : Material) (ray : Ray) (a half_b c : ℝ)
    (ha : a = ray.direction.sqr_length)
    (hhb : half_b = (ray.origin - center).dot ray.direction)
    (hc : c = (ray.origin - center).sqr_length - radius * radius) :
    ((-half_b - Real.sqrt (half_b * half_b - a * c)) / a ≤ 0 →
      Object.intersect (.Sphere center radius m) ray = none)
    ∧ (0 ≤ half_b * half_b - a * c →
        0 < (-half_b - Real.sqrt (half_b * half_b - a * c)) / a →
        Object.intersect (.Sphere center radius m) ray =
          some { position := ray.origin + ray.direction
                    * Vector3.splat ((-half_b - Real.sqrt (half_b * half_b - a * c)) / a)
                 normal := (ray.origin + ray.direction
                    * Vector3.splat ((-half_b - Real.sqrt (half_b * half_b - a * c)) / a)
                    - center) * Vector3.splat (1 / radius)
                 distance := (-half_b - Real.sqrt (half_b * half_b - a * c)) / a })
    ∧ (c < 0 → Object.intersect (.Sphere center radius m) ray = none) := by
  subst ha hhb hc
  refine ⟨fun h => sphere_intersect_none_of_nonpos center radius m ray h, ?_, ?_⟩
  · intro h0 h1
    simp only [Object.intersect]
    rw [if_neg (not_lt.2 h0), if_neg (not_le.2 h1)]
  · intro hin
    apply sphere_intersect_none_of_nonpos center radius m ray
    have ha0 : 0 ≤ ray.direction.sqr_length := Vector3.sqr_length_nonneg _
    set HB := (ray.origin - center).dot ray.direction with hHB
    set A := ray.direction.sqr_length with hA
    set C := (ray.origin - center).sqr_length - radius * radius with hC
    have hAC : A * C ≤ 0 := mul_nonpos_iff.mpr (Or.inl ⟨ha0, le_of_lt hin⟩)
    have h1 : HB * HB ≤ HB * HB - A * C := by linarith
    have h2 : -HB ≤ Real.sqrt (HB * HB - A * C) := by
      calc -HB ≤ |HB| := neg_le_abs HB
        _ = Real.sqrt (HB * HB) := (Real.sqrt_mul_self_eq_abs HB).symm
        _ ≤ Real.sqrt (HB * HB - A * C) := Real.sqrt_le_sqrt h1
    exact div_nonpos_iff.mpr (Or.inr ⟨by linarith, ha0⟩)

/-- Witness for C4 at concrete inputs: a ray past the sphere (near root
negative), a ray from strictly inside, and a ray that hits. -/
theorem c4_sphere_near_root_only_witness :
    (Object.intersect
        (.Sphere ⟨0, 0, 0⟩ 1 ⟨Vector3.zero, Vector3.zero, 0⟩)
        ⟨⟨0, 0, 3⟩, ⟨0, 0, 1⟩⟩ = none)
    ∧ (Object.intersect
        (.Sphere ⟨0, 0, 0⟩ 1 ⟨Vector3.zero, Vector3.zero, 0⟩)
        ⟨⟨0, 0, 0⟩, ⟨0, 0, 1⟩⟩ = none)
    ∧ (Object.intersect
        (.Sphere ⟨0, 0, 0⟩ 1 ⟨Vector3.zero, Vector3.zero, 0⟩)
        ⟨⟨0, 0, 3⟩, ⟨0, 0, -1⟩⟩ ≠ none) := by
  refine ⟨?_, ?_, ?_⟩
  · apply (c4_sphere_near_root_only ⟨0, 0, 0⟩ 1 ⟨Vector3.zero, Vector3.zero, 0⟩
      ⟨⟨0, 0, 3⟩, ⟨0, 0, 1⟩⟩ 1 3 8
      (by norm_num [Vector3.sqr_length])
      (by norm_num [Vector3.dot])
      (by norm_num [Vector3.sqr_length])).1
    rw [show (3 : ℝ) * 3 - 1 * 8 = 1 by norm_num, Real.sqrt_one]
    norm_num
  · exact (c4_sphere_near_root_only ⟨0, 0, 0⟩ 1 ⟨Vector3.zero, Vector3.zero, 0⟩
      ⟨⟨0, 0, 0⟩, ⟨0, 0, 1⟩⟩ 1 0 (-1)
      (by norm_num [Vector3.sqr_length])
      (by norm_num [Vector3.dot])
      (by norm_num [Vector3.sqr_length])).2.2 (by norm_num)
  · rw [(c4_sphere_near_root_only ⟨0, 0, 0⟩ 1 ⟨Vector3.zero, Vector3.zero, 0⟩
      ⟨⟨0, 0, 3⟩, ⟨0, 0, -1⟩⟩ 1 (-3) 8
      (by norm_num [Vector3.sqr_length])
      (by norm_num [Vector3.dot])
      (by norm_num [Vector3.sqr_length])).2.1
      (by norm_num)
      (by rw [show (-3 : ℝ) * (-3) - 1 * 8 = 1 by norm_num, Real.sqrt_one]; norm_num)]
    simp

/-- C5: a ray whose direction has non-negative dot product with a plane's
normal never hits it, and when it does hit, the returned normal is the
plane's stored normal unchanged. -/
theorem c5_plane_one_sided (n : Vector3) (d : ℝ) (m : Material) (ray : Ray)
    (vd vo : ℝ) (hvd : vd = n.dot ray.direction)
    (hvo : vo = -(n.dot ray.origin + d)) :
    (0 ≤ vd → Object.intersect (.Plane n d m) ray = none)
    ∧ (vd < 0 → 0 < vo / vd →
        Object.intersect (.Plane n d m) ray =
          some { position := ray.origin + ray.direction * Vector3.splat (vo / vd)
                 normal := n
                 distance := vo / vd }) := by
  subst hvd hvo
  constructor
  · intro h
    simp only [Object.intersect]
    rw [if_pos h]
  · intro h1 h2
    simp only [Object.intersect]
    rw [if_neg (not_le.2 h1), if_neg (not_le.2 h2)]

/-- Witness for C5 at concrete inputs: a ray moving with the normal is
rejected, a ray against the normal hits with the stored normal returned. -/
theorem c5_plane_one_sided_witness :
    (Object.intersect (.Plane ⟨0, 1, 0⟩ 0 ⟨Vector3.zero, Vector3.zero, 0⟩)
        ⟨⟨0, 5, 0⟩, ⟨0, 1, 0⟩⟩ = none)
    ∧ (∃ h, Object.intersect (.Plane ⟨0, 1, 0⟩ 0 ⟨Vector3.zero, Vector3.zero, 0⟩)
        ⟨⟨0, 5, 0⟩, ⟨0, -1, 0⟩⟩ = some h ∧ h.normal = ⟨0, 1, 0⟩) := by
  constructor
  · exact (c5_plane_one_sided ⟨0, 1, 0⟩ 0 ⟨Vector3.zero, Vector3.zero, 0⟩
      ⟨⟨0, 5, 0⟩, ⟨0, 1, 0⟩⟩ 1 (-5)
      (by norm_num [Vector3.dot]) (by norm_num [Vector3.dot])).1 (by norm_num)
  · rw [(c5_plane_one_sided ⟨0, 1, 0⟩ 0 ⟨Vector3.zero, Vector3.zero, 0⟩
      ⟨⟨0, 5, 0⟩, ⟨0, -1, 0⟩⟩ (-1) (-5)
      (by norm_num [Vector3.dot]) (by norm_num [Vector3.dot])).2
      (by norm_num) (by norm_num)]
    exact ⟨_, rfl, rfl⟩

/-- C6: tracing any ray with a positive depth against the empty object list
returns the configured background radiance, the dark-gray constant
`(0.1, 0.1, 0.1)` of the default `DAY = false` configuration. -/
theorem c6_empty_scene_background (ray : Ray) (g : RNG) (depth : ℕ)
    (h : 0 < depth) :
    (ray_trace ray [] g depth).1 = (⟨0.1, 0.1, 0.1⟩ : Vector3) := by
  obtain ⟨d, rfl⟩ : ∃ d, depth = d + 1 := ⟨depth - 1, by omega⟩
  simp [ray_trace, ray_trace_with, get_closest_object, DAY]

/-- Witness for C6 at a concrete input. -/
theorem c6_empty_scene_background_witness :
    (ray_trace ⟨Vector3.zero, Vector3.zero⟩ [] (fun _ => (0 : ℝ)) 1).1
      = (⟨0.1, 0.1, 0.1⟩ : Vector3) :=
  c6_empty_scene_background ⟨Vector3.zero, Vector3.zero⟩ (fun _ => (0 : ℝ)) 1
    (by norm_num)

theorem closest_step_no_hit (ray : Ray) (acc : Option (Hit × ℕ)) (k : ℕ)
    (o : Object) (hI : o.intersect ray = none) :
    closest_step ray acc (k, o) = acc := by
  cases acc <;> simp [closest_step, hI]

theorem closest_step_none_acc (ray : Ray) (k : ℕ) (o : Object) (h₁ : Hit)
    (hI : o.intersect ray = some h₁) :
    closest_step ray none (k, o) = some (h₁, k) := by
  simp [closest_step, hI]

theorem closest_step_some_some (ray : Ray) (k : ℕ) (o : Object) (h₁ h₀ : Hit)
    (i₀ : ℕ) (hI : o.intersect ray = some h₁) :
    closest_step ray (some (h₀, i₀)) (k, o) =
      if h₀.distance < h₁.distance then some (h₀, i₀) else some (h₁, k) := by
  simp [closest_step, hI]

/-- Invariant of the closest-hit fold: the returned hit either is the
untouched accumulator and beats every list candidate strictly, or comes
from position `j` of the list, is no farther than the accumulator and any
candidate, and beats every later candidate strictly (so on exact ties the
later object wins). -/
theorem closest_fold_spec (ray : Ray) (l : List Object) :
    ∀ (k : ℕ) (acc : Option (Hit × ℕ)) (h : Hit) (i : ℕ),
      (List.enumFrom k l).foldl (closest_step ray) acc = some (h, i) →
      (acc = some (h, i)
        ∧ ∀ j o' h', l.get? j = some o' → o'.intersect ray = some h' →
            h.distance < h'.distance)
      ∨ (∃ j o', l.get? j = some o' ∧ i = k + j ∧ o'.intersect ray = some h
          ∧ (∀ h₀ i₀, acc = some (h₀, i₀) → h.distance ≤ h₀.distance)
          ∧ (∀ j' o'' h', l.get? j' = some o'' → o''.intersect ray = some h' →
              h.distance ≤ h'.distance ∧ (j < j' → h.distance < h'.distance))) := by
  induction l with
  | nil =>
      intro k acc h i heq
      simp only [List.enumFrom, List.foldl] at heq
      left
      refine ⟨heq, ?_⟩
      intro j o' h' hj
      simp at hj
  | cons o l ih =>
      intro k acc h i heq
      simp only [List.enumFrom, List.foldl] at heq
      rcases ih (k + 1) (closest_step ray acc (k, o)) h i heq with
        ⟨hacc', hall⟩ | ⟨j, o', hj, hi, hint, haccle, hall⟩
      · -- the accumulator of the tail fold survived
        cases hI : o.intersect ray with
        | none =>
            rw [closest_step_no_hit ray acc k o hI] at hacc'
            left
            refine ⟨hacc', ?_⟩
            intro j' o'' h' hget hint'
            cases j' with
            | zero =>
                have ho : o = o'' := by simpa using hget
                rw [← ho, hI] at hint'
                exact absurd hint' (by simp)
            | succ j'' =>
                have hget' : l.get? j'' = some o'' := by simpa using hget
                exact hall j'' o'' h' hget' hint'
        | some h₁ =>
            rcases acc with _ | ⟨h₀, i₀⟩
            · rw [closest_step_none_acc ray k o h₁ hI] at hacc'
              obtain ⟨he, hk⟩ : h₁ = h ∧ k = i := by simpa using hacc'
              right
              refine ⟨0, o, by simp, by omega, ?_, ?_, ?_⟩
              · rw [← he]; exact hI
              · intro h₀ i₀ hacc
                exact absurd hacc (by simp)
              · intro j' o'' h' hget hint'
                cases j' with
                | zero =>
                    have ho : o = o'' := by simpa using hget
                    rw [← ho, hI] at hint'
                    have hh : h₁ = h' := by simpa using hint'
                    refine ⟨?_, fun hcon => absurd hcon (by omega)⟩
                    rw [← he, ← hh]
                | succ j'' =>
                    have hget' : l.get? j'' = some o'' := by simpa using hget
                    have hlt := hall j'' o'' h' hget' hint'
                    exact ⟨le_of_lt hlt, fun _ => hlt⟩
            · rw [closest_step_some_some ray k o h₁ h₀ i₀ hI] at hacc'
              by_cases hlt : h₀.distance < h₁.distance
              · rw [if_pos hlt] at hacc'
                obtain ⟨he, hk⟩ : h₀ = h ∧ i₀ = i := by simpa using hacc'
                left
                refine ⟨by rw [← he, ← hk], ?_⟩
                intro j' o'' h' hget hint'
                cases j' with
                | zero =>
                    have ho : o = o'' := by simpa using hget
                    rw [← ho, hI] at hint'
                    have hh : h₁ = h' := by simpa using hint'
                    rw [← he, ← hh]
                    exact hlt
                | succ j'' =>
                    have hget' : l.get? j'' = some o'' := by simpa using hget
                    exact hall j'' o'' h' hget' hint'
              · rw [if_neg hlt] at hacc'
                obtain ⟨he, hk⟩ : h₁ = h ∧ k = i := by simpa using hacc'
                right
                refine ⟨0, o, by simp, by omega, ?_, ?_, ?_⟩
                · rw [← he]; exact hI
                · intro h₀' i₀' hacc
                  obtain ⟨he0, hk0⟩ : h₀ = h₀' ∧ i₀ = i₀' := by simpa using hacc
                  rw [← he, ← he0]
                  exact not_lt.1 hlt
                · intro j' o'' h' hget hint'
                  cases j' with
                  | zero =>
                      have ho : o = o'' := by simpa using hget
                      rw [← ho, hI] at hint'
                      have hh : h₁ = h' := by simpa using hint'
                      refine ⟨?_, fun hcon => absurd hcon (by omega)⟩
                      rw [← he, ← hh]
                  | succ j'' =>
                      have hget' : l.get? j'' = some o'' := by simpa using hget
                      have hlt' := hall j'' o'' h' hget' hint'
                      exact ⟨le_of_lt hlt', fun _ => hlt'⟩
      · -- the winner comes from the tail
        right
        refine ⟨j + 1, o', by simpa using hj, by omega, hint, ?_, ?_⟩
        · intro h₀ i₀ hacc
          cases hI : o.intersect ray with
          | none =>
              exact haccle h₀ i₀ (by rw [closest_step_no_hit ray acc k o hI, hacc])
          | some h₁ =>
              rcases acc with _ | ⟨h₀', i₀'⟩
              · exact absurd hacc (by simp)
              · obtain ⟨he0, hk0⟩ : h₀' = h₀ ∧ i₀' = i₀ := by simpa using hacc
                by_cases hlt : h₀'.distance < h₁.distance
                · have hle := haccle h₀' i₀'
                    (by rw [closest_step_some_some ray k o h₁ h₀' i₀' hI, if_pos hlt])
                  rw [← he0]
                  exact hle
                · have hle := haccle h₁ k
                    (by rw [closest_step_some_some ray k o h₁ h₀' i₀' hI, if_neg hlt])
                  rw [← he0]
                  exact le_trans hle (not_lt.1 hlt)
        · intro j' o'' h' hget hint'
          cases j' with
          | zero =>
              have ho : o = o'' := by simpa using hget
              cases hI : o.intersect ray with
              | none =>
                  rw [← ho, hI] at hint'
                  exact absurd hint' (by simp)
              | some h₁ =>
                  rw [← ho, hI] at hint'
                  have hh : h₁ = h' := by simpa using hint'
                  refine ⟨?_, fun hcon => absurd hcon (by omega)⟩
                  rw [← hh]
                  rcases acc with _ | ⟨h₀', i₀'⟩
                  · exact haccle h₁ k (by rw [closest_step_none_acc ray k o h₁ hI])
                  · by_cases hlt : h₀'.distance < h₁.distance
                    · have hle := haccle h₀' i₀'
                        (by rw [closest_step_some_some ray k o h₁ h₀' i₀' hI, if_pos hlt])
                      linarith
                    · exact haccle h₁ k
                        (by rw [closest_step_some_some ray k o h₁ h₀' i₀' hI, if_neg hlt])
          | succ j'' =>
              have hget' : l.get? j'' = some o'' := by simpa using hget
              rcases hall j'' o'' h' hget' hint' with ⟨hle, hstrict⟩
              exact ⟨hle, fun hlt => hstrict (by omega)⟩

/-- C1 (amended): `get_closest_object` returns a hit of minimal distance,
and on exact distance ties the object encountered later in iteration order
wins: every candidate is no closer, and every candidate strictly after the
returned index is strictly farther. -/
theorem c1_closest_hit_minimal_last_wins (ray : Ray) (objects : List Object)
    (h : Hit) (i : ℕ)
    (heq : get_closest_object ray objects = some (h, i)) :
    (∃ o', objects.get? i = some o' ∧ o'.intersect ray = some h)
    ∧ ∀ j o' h', objects.get? j = some o' → o'.intersect ray = some h' →
        h.distance ≤ h'.distance ∧ (i < j → h.distance < h'.distance) := by
  rcases closest_fold_spec ray objects 0 none h i heq with
    ⟨hacc, _⟩ | ⟨j, o', hj, hi, hint, _, hall⟩
  · exact absurd hacc (by simp)
  · have hj' : j = i := by omega
    subst hj'
    exact ⟨⟨o', hj, hint⟩, hall⟩

/-- Witness for C1 at a concrete input: a single ground plane hit at
distance 5. -/
theorem c1_closest_hit_minimal_last_wins_witness :
    (∃ o', [Object.Plane ⟨0, 1, 0⟩ 0 ⟨Vector3.zero, Vector3.zero, 0⟩].get? 0
        = some o'
      ∧ o'.intersect ⟨⟨0, 5, 0⟩, ⟨0, -1, 0⟩⟩
        = some ⟨⟨0, 0, 0⟩, ⟨0, 1, 0⟩, 5⟩)
    ∧ ∀ j o' h',
        [Object.Plane ⟨0, 1, 0⟩ 0 ⟨Vector3.zero, Vector3.zero, 0⟩].get? j
          = some o' →
        o'.intersect ⟨⟨0, 5, 0⟩, ⟨0, -1, 0⟩⟩ = some h' →
        (Hit.mk ⟨0, 0, 0⟩ ⟨0, 1, 0⟩ 5).distance ≤ h'.distance
          ∧ (0 < j → (Hit.mk ⟨0, 0, 0⟩ ⟨0, 1, 0⟩ 5).distance < h'.distance) :=
  c1_closest_hit_minimal_last_wins ⟨⟨0, 5, 0⟩, ⟨0, -1, 0⟩⟩
    [Object.Plane ⟨0, 1, 0⟩ 0 ⟨Vector3.zero, Vector3.zero, 0⟩]
    ⟨⟨0, 0, 0⟩, ⟨0, 1, 0⟩, 5⟩ 0
    (by norm_num [get_closest_object, List.enum, List.enumFrom, closest_step,
      Object.intersect, Vector3.dot])

/-- Counterexample for C1 as stated: two geometrically identical planes
intersect the ray at exactly equal distances, and `get_closest_object`
returns index 1 (the object encountered last), not index 0 (the first). -/
theorem c1_first_wins_counterexample :
    get_closest_object ⟨⟨0, 5, 0⟩, ⟨0, -1, 0⟩⟩
        [Object.Plane ⟨0, 1, 0⟩ 0 ⟨Vector3.zero, Vector3.zero, 0⟩,
         Object.Plane ⟨0, 1, 0⟩ 0 ⟨Vector3.zero, Vector3.zero, 0⟩]
      = some (⟨⟨0, 0, 0⟩, ⟨0, 1, 0⟩, 5⟩, 1)
    ∧ Object.intersect (Object.Plane ⟨0, 1, 0⟩ 0 ⟨Vector3.zero, Vector3.zero, 0⟩)
        ⟨⟨0, 5, 0⟩, ⟨0, -1, 0⟩⟩ = some ⟨⟨0, 0, 0⟩, ⟨0, 1, 0⟩, 5⟩ := by
  constructor <;>
    norm_num [get_closest_object, List.enum, List.enumFrom, closest_step,
      Object.intersect, Vector3.dot]

/-- C10: whenever `get_closest_object` returns `some (hit, index)`, the
index is in bounds for the objects list and the hit was produced by
intersecting the object at that index, so the `objects[index]` access in
`ray_trace` cannot go out of bounds. -/
theorem c10_closest_index_in_bounds (ray : Ray) (objects : List Object)
    (h : Hit) (i : ℕ)
    (heq : get_closest_object ray objects = some (h, i)) :
    i < objects.length
    ∧ ∃ o', objects.get? i = some o' ∧ o'.intersect ray = some h := by
  rcases closest_fold_spec ray objects 0 none h i heq with
    ⟨hacc, _⟩ | ⟨j, o', hj, hi, hint, _, _⟩
  · exact absurd hacc (by simp)
  · have hj' : j = i := by omega
    subst hj'
    obtain ⟨hlt, _⟩ := List.get?_eq_some.mp hj
    exact ⟨hlt, o', hj, hint⟩

theorem Vector3.sqr_length_normalized (v : Vector3) (hv : v ≠ Vector3.zero) :
    v.normalized.sqr_length = 1 := by
  have hpos : 0 < v.sqr_length := Vector3.sqr_length_pos v hv
  have hs : Real.sqrt v.sqr_length * Real.sqrt v.sqr_length = v.sqr_length :=
    Real.mul_self_sqrt (le_of_lt hpos)
  have key : v.normalized.sqr_length
      = v.sqr_length * ((1 / Real.sqrt v.sqr_length) * (1 / Real.sqrt v.sqr_length)) := by
    simp only [Vector3.normalized, Vector3.length, Vector3.sqr_length,
      Vector3.mul_x, Vector3.mul_y, Vector3.mul_z,
      Vector3.splat_x, Vector3.splat_y, Vector3.splat_z]
    ring
  rw [key, div_mul_div_comm, one_mul, hs]
  exact mul_one_div_cancel (ne_of_gt hpos)

/-- C2 (amended): camera rays produced by `get_ray` have unit-length
directions whenever the pre-normalisation basis combination is nonzero;
the bounce directions built inside `ray_trace` are the unnormalised blend
of the random and mirror directions and need not be unit-length. -/
theorem c2_camera_ray_unit_length (c : Camera) (uv : Vector2) (aspect : ℝ)
    (hnz : (c.right * Vector3.splat ((uv.x * 2 - 1) * aspect)
        + c.up * Vector3.splat (uv.y * 2 - 1) + c.forward) ≠ Vector3.zero) :
    ((c.get_ray uv aspect).direction).sqr_length = 1 := by
  exact Vector3.sqr_length_normalized _ hnz

/-- Witness for C2 at a concrete input: the startup camera through the
image centre. -/
theorem c2_camera_ray_unit_length_witness :
    ((startup_camera.get_ray ⟨0.5, 0.5⟩ 2).direction).sqr_length = 1 :=
  c2_camera_ray_unit_length startup_camera ⟨0.5, 0.5⟩ 2
    (by norm_num [startup_camera, Vector3.zero])

/-- Counterexample for C2 as stated: tracing the ground-plane scene, the
first bounce ray constructed by `ray_trace` (reflectiveness 0, random
draws all 0.95) has direction `(0.9, 0.9, 0.9)` of squared length 2.43,
which is not unit-length. -/
theorem c2_bounce_ray_not_unit_counterexample :
    get_closest_object ⟨⟨0, 5, 0⟩, ⟨0, -1, 0⟩⟩
        [Object.Plane ⟨0, 1, 0⟩ 0 ⟨⟨0.2, 0.8, 0.3⟩, ⟨0, 0, 0⟩, 0⟩]
      = some (⟨⟨0, 0, 0⟩, ⟨0, 1, 0⟩, 5⟩, 0)
    ∧ ((bounce_ray ⟨0, 0, 0⟩ ⟨0, 1, 0⟩
          ((Vector3.mk 0 (-1) 0).reflect ⟨0, 1, 0⟩) 0
          (fun _ => 0.95)).1.direction).sqr_length ≠ 1 := by
  constructor
  · norm_num [get_closest_object, List.enum, List.enumFrom, closest_step,
      Object.intersect, Vector3.dot]
  · norm_num [bounce_ray, random_in_direction, draw, signum, Vector3.reflect,
      Vector3.dot, Vector3.sqr_length]

/-- C7 (amended): no runtime event changes the scene collection; the event
loop of main.rs handles only `Close` and `Resize`, clicks fall through the
wildcard arm, and the objects list stays the startup list for the whole
run. -/
theorem c7_scene_collection_never_changes (s : LoopState) (e : SurfaceEvent) :
    (handle_event s e).objects = s.objects := by
  cases e <;> rfl

/-- Counterexample for C7 as stated: the camera ray of a left click at the
centre pixel does hit an object of the startup scene, yet processing the
click leaves the objects list unchanged at its startup length 2 instead of
appending a new emissive sphere. -/
theorem c7_click_appends_counterexample :
    (∃ p, get_closest_object
        (startup_camera.get_ray ⟨0.5, 0.5⟩ ((640 : ℝ) / 480)) startup_objects
      = some p)
    ∧ (handle_event
        ⟨List.replicate (640 * 480) Vector3.zero, 0, true, startup_objects⟩
        (SurfaceEvent.MouseClick 0 320 240)).objects = startup_objects
    ∧ startup_objects.length = 2 := by
  refine ⟨⟨(⟨⟨0, 1, -1⟩, ⟨0, 0, -1⟩, 2⟩, 1), ?_⟩, rfl, rfl⟩
  norm_num [startup_camera, startup_objects, Camera.get_ray, Vector3.normalized,
    Vector3.length, Vector3.sqr_length, get_closest_object, List.enum,
    List.enumFrom, closest_step, Object.intersect, Vector3.dot, Real.sqrt_one]

/-- C8 (amended): every hit from a successful intersection of a well-formed
object (positive sphere radius, unit plane normal) has a strictly positive
distance and a unit-length normal on the incidence side: the normal's dot
product with the ray direction is never positive, and is strictly negative
for plane hits; the `Hit` record itself carries no material, which callers
recover from the intersected object instead. -/
theorem c8_hit_positive_distance_unit_normal (o : Object) (ray : Ray)
    (h : Hit) (hwf : o.wf) (hI : o.intersect ray = some h) :
    0 < h.distance ∧ h.normal.sqr_length = 1
    ∧ h.normal.dot ray.direction ≤ 0
    ∧ (∀ n d m, o = Object.Plane n d m → h.normal.dot ray.direction < 0) := by
  cases o with
  | Plane n d m =>
      simp only [Object.intersect] at hI
      split_ifs at hI with h1 h2
      have hinj := Option.some.inj hI
      subst hinj
      exact ⟨not_le.mp h2, hwf, le_of_lt (not_le.mp h1),
        fun n' d' m' _ => not_le.mp h1⟩
  | Sphere center radius m =>
      have hr : (0 : ℝ) < radius := hwf
      simp only [Object.intersect] at hI
      set A := ray.direction.sqr_length with hA_def
      set HB := (ray.origin - center).dot ray.direction with hHB_def
      set C := (ray.origin - center).sqr_length - radius * radius with hC_def
      set S := Real.sqrt (HB * HB - A * C) with hS_def
      set t := (-HB - S) / A with ht_def
      split_ifs at hI with h1 h2
      have hinj := Option.some.inj hI
      subst hinj
      have hD : 0 ≤ HB * HB - A * C := not_lt.mp h1
      have ht : 0 < t := not_le.mp h2
      have hAne : A ≠ 0 := by
        intro h0
        rw [ht_def, h0, div_zero] at ht
        exact lt_irrefl 0 ht
      have hs2 : S * S = HB * HB - A * C := by
        rw [hS_def]
        exact Real.mul_self_sqrt hD
      have hS0 : 0 ≤ S := by
        rw [hS_def]
        exact Real.sqrt_nonneg _
      have hAt : A * t = -HB - S := by
        rw [ht_def, mul_comm, div_mul_cancel₀ _ hAne]
      have hrne : radius ≠ 0 := ne_of_gt hr
      refine ⟨ht, ?_, ?_, ?_⟩
      · have hsv : S = -HB - A * t := by linarith
        have hsq : (-HB - A * t) * (-HB - A * t) = HB * HB - A * C := by
          rw [← hsv]
          exact hs2
        have hfac : A * (A * (t * t) + 2 * HB * t + C) = 0 := by
          linear_combination hsq
        have hquad : A * (t * t) + 2 * HB * t + C = 0 := by
          rcases mul_eq_zero.mp hfac with h0 | h0
          · exact absurd h0 hAne
          · exact h0
        rw [hA_def, hHB_def, hC_def] at hquad
        simp only [Vector3.sqr_length, Vector3.dot, Vector3.sub_x, Vector3.sub_y,
          Vector3.sub_z, Vector3.add_x, Vector3.add_y, Vector3.add_z,
          Vector3.mul_x, Vector3.mul_y, Vector3.mul_z,
          Vector3.splat_x, Vector3.splat_y, Vector3.splat_z] at hquad ⊢
        field_simp
        linear_combination hquad
      · -- incidence side: the outward normal opposes the ray direction
        have hdotval : ((ray.origin + ray.direction * Vector3.splat t - center)
              * Vector3.splat (1 / radius)).dot ray.direction
            = (HB + A * t) * (1 / radius) := by
          rw [hHB_def, hA_def]
          simp only [Vector3.dot, Vector3.sqr_length, Vector3.sub_x, Vector3.sub_y,
            Vector3.sub_z, Vector3.add_x, Vector3.add_y, Vector3.add_z,
            Vector3.mul_x, Vector3.mul_y, Vector3.mul_z,
            Vector3.splat_x, Vector3.splat_y, Vector3.splat_z]
          ring
        have hsum : HB + A * t = -S := by linarith
        rw [hdotval, hsum]
        have hnn : 0 ≤ S * (1 / radius) :=
          mul_nonneg hS0 (by positivity)
        linarith
      · intro n' d' m' heq
        exact Object.noConfusion heq

/-- Witness for C8 at a concrete input: the ground plane hit at distance 5
with the stored unit normal opposing the downward ray. -/
theorem c8_hit_positive_distance_unit_normal_witness :
    0 < (Hit.mk ⟨0, 0, 0⟩ ⟨0, 1, 0⟩ 5).distance
    ∧ ((Hit.mk ⟨0, 0, 0⟩ ⟨0, 1, 0⟩ 5).normal).sqr_length = 1
    ∧ ((Hit.mk ⟨0, 0, 0⟩ ⟨0, 1, 0⟩ 5).normal).dot ⟨0, -1, 0⟩ ≤ 0
    ∧ (∀ n d m,
        Object.Plane (⟨0, 1, 0⟩ : Vector3) 0
            (⟨Vector3.zero, Vector3.zero, 0⟩ : Material)
          = Object.Plane n d m →
        ((Hit.mk ⟨0, 0, 0⟩ ⟨0, 1, 0⟩ 5).normal).dot ⟨0, -1, 0⟩ < 0) :=
  c8_hit_positive_distance_unit_normal
    (Object.Plane ⟨0, 1, 0⟩ 0 ⟨Vector3.zero, Vector3.zero, 0⟩)
    ⟨⟨0, 5, 0⟩, ⟨0, -1, 0⟩⟩ ⟨⟨0, 0, 0⟩, ⟨0, 1, 0⟩, 5⟩
    (by norm_num [Object.wf, Vector3.sqr_length])
    (by norm_num [Object.intersect, Vector3.dot])

/-- Counterexample for C8 as stated: two planes differing only in their
material produce exactly equal `Hit` records for the same ray, so a `Hit`
cannot carry a copy of the intersected object's material; the lib.rs `Hit`
struct stores only position, normal and distance. -/
theorem c8_hit_no_material_counterexample :
    Object.intersect
        (Object.Plane ⟨0, 1, 0⟩ 0 ⟨⟨0.2, 0.8, 0.3⟩, ⟨0, 0, 0⟩, 0⟩)
        ⟨⟨0, 5, 0⟩, ⟨0, -1, 0⟩⟩
      = Object.intersect
        (Object.Plane ⟨0, 1, 0⟩ 0 ⟨⟨0.9, 0.9, 0.9⟩, ⟨1, 1, 1⟩, 1⟩)
        ⟨⟨0, 5, 0⟩, ⟨0, -1, 0⟩⟩
    ∧ (Object.intersect
        (Object.Plane ⟨0, 1, 0⟩ 0 ⟨⟨0.2, 0.8, 0.3⟩, ⟨0, 0, 0⟩, 0⟩)
        ⟨⟨0, 5, 0⟩, ⟨0, -1, 0⟩⟩).isSome
    ∧ (Object.Plane ⟨0, 1, 0⟩ 0 ⟨⟨0.2, 0.8, 0.3⟩, ⟨0, 0, 0⟩, 0⟩).get_material
      ≠ (Object.Plane ⟨0, 1, 0⟩ 0 ⟨⟨0.9, 0.9, 0.9⟩, ⟨1, 1, 1⟩, 1⟩).get_material := by
  refine ⟨?_, ?_, ?_⟩
  · norm_num [Object.intersect, Vector3.dot]
  · norm_num [Object.intersect, Vector3.dot]
  · intro hcon
    have hrefl := congrArg Material.reflectiveness hcon
    norm_num [Object.get_material] at hrefl

theorem main_step_no_hit (ray : Ray) (acc : Option Main.MainHit) (o : Object)
    (hI : o.intersect ray = none) :
    Main.closest_step ray acc o = acc := by
  cases acc <;> simp [Main.closest_step, Main.intersect_with_material, hI]

theorem main_step_none_acc (ray : Ray) (o : Object) (h₁ : Hit)
    (hI : o.intersect ray = some h₁) :
    Main.closest_step ray none o
      = some ⟨h₁.position, h₁.normal, h₁.distance, o.get_material⟩ := by
  simp [Main.closest_step, Main.intersect_with_material, hI]

theorem main_step_some_acc (ray : Ray) (o : Object) (h₁ : Hit)
    (hm : Main.MainHit) (hI : o.intersect ray = some h₁) :
    Main.closest_step ray (some hm) o
      = if hm.distance < h₁.distance then some hm
        else some ⟨h₁.position, h₁.normal, h₁.distance, o.get_material⟩ := by
  simp [Main.closest_step, Main.intersect_with_material, hI]

/-- Lockstep relation between main.rs's closest-hit fold (which carries the
material) and the library's (which carries the index). -/
theorem main_fold_rel (ray : Ray) (objs : List Object) (l : List Object) :
    ∀ (k : ℕ) (accL : Option (Hit × ℕ)),
      (∀ j, j < l.length →
        objs.getD (k + j) defaultObject = l.getD j defaultObject) →
      l.foldl (Main.closest_step ray) (accL.map (attach_material objs))
        = ((List.enumFrom k l).foldl (closest_step ray) accL).map
            (attach_material objs) := by
  induction l with
  | nil =>
      intro k accL hcons
      rfl
  | cons o l ih =>
      intro k accL hcons
      simp only [List.foldl, List.enumFrom]
      have ho : objs.getD k defaultObject = o := by
        have h0 := hcons 0 (by simp)
        simpa using h0
      have hstep : Main.closest_step ray (accL.map (attach_material objs)) o
          = (closest_step ray accL (k, o)).map (attach_material objs) := by
        cases hI : o.intersect ray with
        | none =>
            rw [main_step_no_hit ray _ o hI, closest_step_no_hit ray accL k o hI]
        | some h₁ =>
            rcases accL with _ | ⟨h₀, i₀⟩
            · simp only [Option.map_none']
              rw [main_step_none_acc ray o h₁ hI,
                closest_step_none_acc ray k o h₁ hI]
              dsimp only [Option.map_some', attach_material]
              rw [ho]
            · simp only [Option.map_some']
              rw [main_step_some_acc ray o h₁ _ hI,
                closest_step_some_some ray k o h₁ h₀ i₀ hI]
              dsimp only [attach_material]
              by_cases hlt : h₀.distance < h₁.distance
              · rw [if_pos hlt, if_pos hlt]
                dsimp only [Option.map_some', attach_material]
              · rw [if_neg hlt, if_neg hlt]
                dsimp only [Option.map_some', attach_material]
                rw [ho]
      rw [hstep]
      exact ih (k + 1) (closest_step ray accL (k, o)) (fun j hj => by
        have h1 := hcons (j + 1) (by simp only [List.length_cons]; omega)
        rw [show k + 1 + j = k + (j + 1) by omega]
        simpa using h1)

/-- main.rs's closest hit is the library's with the hit object's material
attached. -/
theorem main_gco_eq (ray : Ray) (objs : List Object) :
    Main.get_closest_object ray objs
      = (get_closest_object ray objs).map (attach_material objs) := by
  have h := main_fold_rel ray objs objs 0 none (fun j hj => by simp)
  simpa [Main.get_closest_object, get_closest_object, List.enum] using h

theorem sample_loop_congr (t₁ t₂ : Ray → RNG → Vector3 × RNG)
    (ht : ∀ r g, t₁ r g = t₂ r g)
    (position normal direction : Vector3) (k : ℝ) :
    ∀ (m : ℕ) (g : RNG),
      sample_loop t₁ position normal direction k m g
        = sample_loop t₂ position normal direction k m g := by
  intro m
  induction m with
  | zero =>
      intro g
      rfl
  | succ m ih =>
      intro g
      simp only [sample_loop]
      rw [ht, ih]

/-- main.rs's nested tracer agrees with the library tracer run in the
`DAY = true` configuration, for every depth, ray, object list and random
stream. -/
theorem main_trace_rec_eq :
    ∀ (depth : ℕ) (ray : Ray) (objs : List Object) (g : RNG),
      Main.ray_trace_rec depth ray objs g = ray_trace_with true depth ray objs g := by
  intro depth
  induction depth with
  | zero =>
      intro ray objs g
      rfl
  | succ depth ih =>
      intro ray objs g
      simp only [Main.ray_trace_rec, ray_trace_with, main_gco_eq]
      cases hgco : get_closest_object ray objs with
      | none => simp
      | some p =>
          obtain ⟨h, i⟩ := p
          simp only [Option.map_some', attach_material]
          rw [sample_loop_congr (fun r g => Main.ray_trace_rec depth r objs g)
            (fun r g => ray_trace_with true depth r objs g)
            (fun r g => ih r objs g)]

/-- C9 (amended): the `ray_trace` nested in main.rs computes, for every
ray, object list, depth and random stream, exactly what the library's
`ray_trace` computes in the `DAY = true` configuration — the hit branches
agree, but the miss branches agree only under `DAY = true`, not under the
library's actual `DAY = false` setting. -/
theorem c9_main_trace_matches_day_true (ray : Ray) (objects : List Object)
    (g : RNG) (depth : ℕ) :
    Main.ray_trace ray objects g depth = ray_trace_with true depth ray objects g :=
  main_trace_rec_eq depth ray objects g

/-- Counterexample for C9 as stated: on a miss (empty scene, upward ray,
depth 1) main.rs's tracer returns the sky-gradient colour `(0.5, 0.7, 1)`
while the library with its `DAY = false` configuration returns
`(0.1, 0.1, 0.1)`. -/
theorem c9_miss_branch_counterexample :
    (Main.ray_trace ⟨⟨0, 0, 0⟩, ⟨0, 1, 0⟩⟩ [] (fun _ => (0 : ℝ)) 1).1
      ≠ (ray_trace ⟨⟨0, 0, 0⟩, ⟨0, 1, 0⟩⟩ [] (fun _ => (0 : ℝ)) 1).1 := by
  intro hcon
  have h1 : (1 : ℕ) = 0 + 1 := rfl
  rw [h1] at hcon
  have hx := congrArg Vector3.x hcon
  norm_num [Main.ray_trace, Main.ray_trace_rec, Main.get_closest_object,
    ray_trace, ray_trace_with, get_closest_object, List.enum, List.enumFrom,
    sky_color, DAY] at hx

/-- Witness for C10 at a concrete input. -/
theorem c10_closest_index_in_bounds_witness :
    0 < ([Object.Plane ⟨0, 1, 0⟩ 0 ⟨Vector3.zero, Vector3.zero, 0⟩] : List Object).length
    ∧ ∃ o', [Object.Plane ⟨0, 1, 0⟩ 0 ⟨Vector3.zero, Vector3.zero, 0⟩].get? 0
          = some o'
        ∧ o'.intersect ⟨⟨0, 5, 0⟩, ⟨0, -1, 0⟩⟩
          = some ⟨⟨0, 0, 0⟩, ⟨0, 1, 0⟩, 5⟩ :=
  c10_closest_index_in_bounds ⟨⟨0, 5, 0⟩, ⟨0, -1, 0⟩⟩
    [Object.Plane ⟨0, 1, 0⟩ 0 ⟨Vector3.zero, Vector3.zero, 0⟩]
    ⟨⟨0, 0, 0⟩, ⟨0, 1, 0⟩, 5⟩ 0
    (by norm_num [get_closest_object, List.enum, List.enumFrom, closest_step,
      Object.intersect, Vector3.dot])

end Raytracer
